import Mathlib

/-!
Verification of the resilience core of the insta-api repository:
the account store and availability policy (`app/core/accounts.py`),
the rotation/execution engine (`app/services/instaloader_service.py`),
the in-process cache (`app/core/cache.py`) and the sliding-window
limiter (`app/middleware/rate_limit.py`).

Times (`datetime.now()` / `time.time()`) are modelled as an explicit
`now` parameter: `Nat` for the account/cache clock, `Int` for the
limiter timestamps (Python floats compared with `<`/`>`).  In-place
mutation of Python objects is modelled by explicit state passing:
functions return the updated record together with their result.
A Python `IndexError` is modelled as `Except.error ()`.
-/

namespace InstaApi

/-- `AccountInfo` from `app/core/accounts.py`: credentials plus the
runtime-only health fields. -/
structure AccountInfo where
  username : String
  password : String
  enabled : Bool := true
  notes : String := ""
  requests_this_hour : Nat := 0
  last_request_time : Option Nat := none
  rate_limited_until : Option Nat := none
  last_error : Option String := none
deriving DecidableEq, Repr

/-- `AccountInfo.is_available` (accounts.py lines 32-50).  The Python
property mutates `self` when an expired rate-limit deadline is observed
(lazy reset); the embedding returns the availability flag together with
the possibly-updated account. -/
def AccountInfo.is_available (now : Nat) (a : AccountInfo) : Bool × AccountInfo :=
  if a.enabled = false then (false, a)
  else
    match a.rate_limited_until with
    | some until_t =>
      if now < until_t then (false, a)
      else
        let a' := { a with rate_limited_until := none, requests_this_hour := 0 }
        if 150 ≤ a'.requests_this_hour then (false, a') else (true, a')
    | none =>
      if 150 ≤ a.requests_this_hour then (false, a) else (true, a)

/-- `AccountInfo.record_request` (accounts.py lines 52-55). -/
def AccountInfo.record_request (now : Nat) (a : AccountInfo) : AccountInfo :=
  { a with requests_this_hour := a.requests_this_hour + 1, last_request_time := some now }

/-- `AccountInfo.mark_rate_limited` (accounts.py lines 57-60);
`duration_minutes` defaults to 60 in the source. -/
def AccountInfo.mark_rate_limited (now : Nat) (duration_minutes : Nat) (a : AccountInfo) : AccountInfo :=
  { a with rate_limited_until := some (now + duration_minutes) }

/-- `AccountInfo.reset_hourly_counter` (accounts.py lines 62-64). -/
def AccountInfo.reset_hourly_counter (a : AccountInfo) : AccountInfo :=
  { a with requests_this_hour := 0 }

/-- The mutable state of `AccountManager`: the ordered account list and
the round-robin cursor `_current_index`. -/
structure AccountManager where
  accounts : List AccountInfo
  current_index : Nat
deriving DecidableEq, Repr

/-- One parsed entry of an accounts JSON file, with the defaults of
`acc.get("enabled", True)` and `acc.get("notes", "")` already applied. -/
structure AccountSpec where
  username : String
  password : String
  enabled : Bool := true
  notes : String := ""
deriving DecidableEq, Repr

/-- The state update of `AccountManager.load_from_file` (accounts.py
lines 122-134) on successfully parsed file data: the account list is
replaced by freshly constructed `AccountInfo` records (health fields at
their defaults); the cursor `_current_index` is not touched.  File I/O
and JSON decoding are external; `data` is the parsed `accounts` array. -/
def AccountManager.load_from_file (data : List AccountSpec) (m : AccountManager) : Nat × AccountManager :=
  let accs := data.map (fun s =>
    { username := s.username, password := s.password, enabled := s.enabled, notes := s.notes : AccountInfo })
  (accs.length, { m with accounts := accs })

/-- `AccountManager.add_account` (accounts.py lines 204-218). -/
def AccountManager.add_account (username password notes : String) (m : AccountManager) : Bool × AccountManager :=
  if m.accounts.any (fun a => a.username == username) then (false, m)
  else (true, { m with accounts := m.accounts ++ [{ username := username, password := password, notes := notes }] })

/-- `AccountManager.remove_account` (accounts.py lines 220-228): deletes
the first account with the given username; the cursor is not touched. -/
def AccountManager.remove_account (username : String) (m : AccountManager) : Bool × AccountManager :=
  match m.accounts.findIdx? (fun a => a.username == username) with
  | some i => (true, { m with accounts := m.accounts.eraseIdx i })
  | none => (false, m)

/-- The `while attempts < len(self._accounts)` loop of
`AccountManager.get_next_account` (accounts.py lines 242-250).  Each
attempt reads `self._accounts[self._current_index]` (an out-of-range
cursor raises `IndexError`, modelled as `.error ()`), advances the
cursor by `(cursor + 1) % len`, evaluates `is_available` (writing its
lazy-reset effect back into the list) and returns the account if it was
available.  The selected account is returned together with its index. -/
def AccountManager.getNextGo (now : Nat) : Nat → AccountManager → Except Unit (Option (Nat × AccountInfo) × AccountManager)
  | 0, m => .ok (none, m)
  | attempts_left + 1, m =>
    match m.accounts.get? m.current_index with
    | none => .error ()
    | some account =>
      let idx := m.current_index
      let m1 := { m with current_index := (m.current_index + 1) % m.accounts.length }
      let p := account.is_available now
      let m2 := { m1 with accounts := m1.accounts.set idx p.2 }
      if p.1 then .ok (some (idx, p.2), m2)
      else AccountManager.getNextGo now attempts_left m2

/-- `AccountManager.get_next_account` (accounts.py lines 230-254),
additionally reporting the list index of the selected account (the
Python code returns the list element itself, whose identity is its
position). -/
def AccountManager.get_next_account_core (now : Nat) (m : AccountManager) : Except Unit (Option (Nat × AccountInfo) × AccountManager) :=
  if m.accounts.isEmpty then .ok (none, m)
  else m.getNextGo now m.accounts.length

/-- `AccountManager.get_next_account` (accounts.py lines 230-254). -/
def AccountManager.get_next_account (now : Nat) (m : AccountManager) : Except Unit (Option AccountInfo × AccountManager) :=
  match m.get_next_account_core now with
  | .error e => .error e
  | .ok (r, m') => .ok (r.map (fun x => x.2), m')

/-- `AccountManager.available_count` (accounts.py lines 317-320):
`sum(1 for a in self._accounts if a.is_available)`.  Each evaluation of
`is_available` may lazily reset the account, so the property also
returns the updated manager. -/
def AccountManager.available_count (now : Nat) (m : AccountManager) : Nat × AccountManager :=
  let pass := m.accounts.map (fun a => a.is_available now)
  ((pass.filter (fun p => p.1)).length, { m with accounts := pass.map (fun p => p.2) })

/-- One element of the `accounts` list built by `get_stats`
(accounts.py lines 285-296). -/
structure AccountStat where
  username : String
  enabled : Bool
  available : Bool
  requests_this_hour : Nat
  rate_limited_until : Option Nat
  last_error : Option String
  notes : String
deriving DecidableEq, Repr

/-- The dictionary returned by `AccountManager.get_stats`. -/
structure Stats where
  total_accounts : Nat
  enabled : Nat
  available_now : Nat
  rate_limited : Nat
  accounts : List AccountStat
deriving DecidableEq, Repr

/-- `AccountManager.get_stats` (accounts.py lines 272-297).  The
`available_now` sum evaluates `is_available` once per account (first
mutation pass); `rate_limited` is computed afterwards on the updated
accounts; the per-account dictionaries evaluate `is_available` a second
time and then read the (post-reset) health fields. -/
def AccountManager.get_stats (now : Nat) (m : AccountManager) : Stats × AccountManager :=
  let total := m.accounts.length
  let enabledCount := (m.accounts.filter (fun a => a.enabled)).length
  let pass1 := m.accounts.map (fun a => a.is_available now)
  let availableCount := (pass1.filter (fun p => p.1)).length
  let accounts1 := pass1.map (fun p => p.2)
  let rateLimited := (accounts1.filter (fun a =>
    match a.rate_limited_until with
    | some t => decide (now < t)
    | none => false)).length
  let pass2 := accounts1.map (fun a => a.is_available now)
  let entries := pass2.map (fun p =>
    { username := p.2.username, enabled := p.2.enabled, available := p.1,
      requests_this_hour := p.2.requests_this_hour,
      rate_limited_until := p.2.rate_limited_until,
      last_error := p.2.last_error, notes := p.2.notes : AccountStat })
  ({ total_accounts := total, enabled := enabledCount, available_now := availableCount,
     rate_limited := rateLimited, accounts := entries },
   { m with accounts := pass2.map (fun p => p.2) })

/-- The cursor invariant claimed by the spec: `_current_index` lies in
`[0, len)`, or is 0 when the account list is empty. -/
def cursorOK (m : AccountManager) : Prop :=
  (m.accounts = [] ∧ m.current_index = 0) ∨ m.current_index < m.accounts.length

instance (m : AccountManager) : Decidable (cursorOK m) := by
  unfold cursorOK; infer_instance

/-- A pool in which every account is enabled, not rate-limited, and
below the hourly ceiling (the hypothesis of the round-robin claim). -/
def cleanPool (m : AccountManager) : Prop :=
  ∀ a ∈ m.accounts, a.enabled = true ∧ a.rate_limited_until = none ∧ a.requests_this_hour < 150

instance (m : AccountManager) : Decidable (cleanPool m) := by
  unfold cleanPool; infer_instance

/-- `k` consecutive calls to `get_next_account`, collecting the results
(`.error ()` records an `IndexError`, which aborts the sequence). -/
def rotateCalls (now : Nat) : Nat → AccountManager → List (Except Unit (Option AccountInfo)) × AccountManager
  | 0, m => ([], m)
  | k + 1, m =>
    match m.get_next_account now with
    | .error e => ([.error e], m)
    | .ok (r, m') =>
      let p := rotateCalls now k m'
      (.ok r :: p.1, p.2)

/-- The state effect of one `is_available` evaluation, described
point-free: an enabled account whose rate-limit deadline has passed is
reset (deadline cleared, hourly counter zeroed); every other account is
left unchanged. -/
def lazyReset (now : Nat) (a : AccountInfo) : AccountInfo :=
  match a.rate_limited_until with
  | some t =>
    if a.enabled = true ∧ t ≤ now then { a with rate_limited_until := none, requests_this_hour := 0 }
    else a
  | none => a

/-! ### Basic lemmas about the availability policy -/

lemma isAvail_clean (now : Nat) (a : AccountInfo) (h1 : a.enabled = true)
    (h2 : a.rate_limited_until = none) (h3 : a.requests_this_hour < 150) :
    a.is_available now = (true, a) := by
  unfold AccountInfo.is_available
  rw [h1, h2]
  simp [Nat.not_le.mpr h3]

lemma isAvail_snd_eq_lazyReset (now : Nat) (a : AccountInfo) :
    (a.is_available now).2 = lazyReset now a := by
  unfold AccountInfo.is_available lazyReset
  cases he : a.enabled <;> cases hr : a.rate_limited_until <;>
    simp_all <;> split_ifs <;> simp_all <;> omega

lemma isAvail_false_snd (now : Nat) (a : AccountInfo)
    (h : (a.is_available now).1 = false) : (a.is_available now).2 = a := by
  unfold AccountInfo.is_available at *
  cases he : a.enabled <;> cases hr : a.rate_limited_until <;>
    simp_all <;> split_ifs at h ⊢ <;> simp_all

lemma isAvail_snd_username (now : Nat) (a : AccountInfo) :
    (a.is_available now).2.username = a.username := by
  unfold AccountInfo.is_available
  cases he : a.enabled <;> cases hr : a.rate_limited_until <;> simp_all <;> split_ifs <;> simp_all

lemma isAvail_snd_enabled (now : Nat) (a : AccountInfo) :
    (a.is_available now).2.enabled = a.enabled := by
  unfold AccountInfo.is_available
  cases he : a.enabled <;> cases hr : a.rate_limited_until <;> simp_all <;> split_ifs <;> simp_all

lemma isAvail_true_enabled (now : Nat) (a : AccountInfo)
    (h : (a.is_available now).1 = true) : a.enabled = true := by
  unfold AccountInfo.is_available at h
  cases he : a.enabled <;> simp_all

lemma isAvail_snd_idem (now : Nat) (a : AccountInfo) :
    ((a.is_available now).2.is_available now).2 = (a.is_available now).2 := by
  rw [isAvail_snd_eq_lazyReset, isAvail_snd_eq_lazyReset]
  unfold lazyReset
  cases hr : a.rate_limited_until with
  | none => simp [hr]
  | some t =>
    simp only []
    split_ifs with h <;> simp_all

/-! ### List helper lemmas -/

lemma set_get?_self {α : Type} : ∀ (l : List α) (n : Nat) (a : α),
    l.get? n = some a → l.set n a = l
  | [], n, a, h => by cases n <;> exact Option.noConfusion h
  | x :: xs, 0, a, h => by
    have hx : x = a := Option.some.inj h
    show a :: xs = x :: xs
    rw [hx]
  | x :: xs, n + 1, a, h => by
    have h' : xs.get? n = some a := h
    show x :: xs.set n a = x :: xs
    rw [set_get?_self xs n a h']

lemma map_get?_range {α : Type} : ∀ (l : List α),
    (List.range l.length).map (fun j => l.get? j) = l.map some
  | [] => by simp
  | x :: xs => by
    rw [List.length_cons, List.range_succ_eq_map, List.map_cons, List.map_map, List.map_cons]
    refine congrArg₂ _ rfl ?_
    rw [show ((fun j => (x :: xs).get? j) ∘ (· + 1)) = fun j => xs.get? j from rfl]
    exact map_get?_range xs

lemma get?_isSome_of_lt {α : Type} (l : List α) (n : Nat) (h : n < l.length) :
    ∃ a, l.get? n = some a := by
  rw [List.get?_eq_get h]
  exact ⟨_, rfl⟩

/-! ### Round-robin rotation (claim C1) -/

lemma getNextGo_clean_succ (now f : Nat) (m : AccountManager) (a : AccountInfo)
    (hclean : cleanPool m) (ha : m.accounts.get? m.current_index = some a) :
    m.getNextGo now (f + 1) =
      .ok (some (m.current_index, a), { m with current_index := (m.current_index + 1) % m.accounts.length }) := by
  obtain ⟨h1, h2, h3⟩ := hclean a (List.get?_mem ha)
  have havail := isAvail_clean now a h1 h2 h3
  unfold AccountManager.getNextGo
  rw [ha]
  simp only [havail]
  rw [set_get?_self _ _ _ ha]
  simp

lemma get_next_clean (now : Nat) (m : AccountManager)
    (hclean : cleanPool m) (hidx : m.current_index < m.accounts.length) :
    m.get_next_account now =
      .ok (m.accounts.get? m.current_index, { m with current_index := (m.current_index + 1) % m.accounts.length }) := by
  obtain ⟨a, ha⟩ := get?_isSome_of_lt m.accounts m.current_index hidx
  have hlen : 0 < m.accounts.length := Nat.lt_of_le_of_lt (Nat.zero_le _) hidx
  obtain ⟨f, hf⟩ : ∃ f, m.accounts.length = f + 1 := ⟨m.accounts.length - 1, by omega⟩
  have hne : m.accounts.isEmpty = false := by
    cases hacc : m.accounts with
    | nil => rw [hacc] at hlen; simp at hlen
    | cons x xs => simp
  have hcore : m.get_next_account_core now =
      .ok (some (m.current_index, a), { m with current_index := (m.current_index + 1) % m.accounts.length }) := by
    unfold AccountManager.get_next_account_core
    rw [hne]
    simp only [Bool.false_eq_true, if_false]
    rw [hf, getNextGo_clean_succ now f m a hclean ha, hf]
  unfold AccountManager.get_next_account
  rw [hcore, ha]
  rfl

lemma rotateCalls_clean (now : Nat) : ∀ (k : Nat) (m : AccountManager),
    cleanPool m → m.current_index < m.accounts.length →
    rotateCalls now k m =
      ((List.range k).map (fun j => .ok (m.accounts.get? ((m.current_index + j) % m.accounts.length))),
       { m with current_index := (m.current_index + k) % m.accounts.length }) := by
  intro k
  induction k with
  | zero =>
    intro m hc hi
    simp only [rotateCalls, List.range_zero, List.map_nil, Nat.add_zero, Nat.mod_eq_of_lt hi]
  | succ k ih =>
    intro m hc hi
    have hlen : 0 < m.accounts.length := Nat.lt_of_le_of_lt (Nat.zero_le _) hi
    have step := get_next_clean now m hc hi
    have hnext : ((m.current_index + 1) % m.accounts.length) < m.accounts.length := Nat.mod_lt _ hlen
    simp only [rotateCalls, step]
    rw [ih { m with current_index := (m.current_index + 1) % m.accounts.length } hc hnext]
    refine congrArg₂ _ ?_ ?_
    · rw [List.range_succ_eq_map, List.map_cons, List.map_map]
      refine congrArg₂ _ ?_ ?_
      · rw [Nat.add_zero, Nat.mod_eq_of_lt hi]
      · refine List.map_congr_left ?_
        intro j _
        simp only [Function.comp_apply]
        rw [Nat.mod_add_mod]
        rw [show m.current_index + 1 + j = m.current_index + (j + 1) from by omega]
    · simp only []
      rw [Nat.mod_add_mod]
      rw [show m.current_index + 1 + k = m.current_index + (k + 1) from by omega]

/-- **C1.** For every pool of N ≥ 1 accounts, all enabled, none
rate-limited, all with hourly counters below 150, and the cursor at 0,
the first N calls to `get_next_account` return the N accounts exactly
once each in insertion order (leaving the pool state as it was), and the
(N+1)-th call returns the first account again. -/
theorem c1_round_robin_cycle (now : Nat) (m : AccountManager)
    (hclean : cleanPool m) (hidx : m.current_index = 0) (hlen : 1 ≤ m.accounts.length) :
    rotateCalls now m.accounts.length m = (m.accounts.map (fun a => .ok (some a)), m) ∧
    (rotateCalls now (m.accounts.length + 1) m).1 =
      m.accounts.map (fun a => .ok (some a)) ++ [.ok (m.accounts.get? 0)] := by
  have hi : m.current_index < m.accounts.length := by omega
  have key := fun k => rotateCalls_clean now k m hclean hi
  have hmapped : (List.range m.accounts.length).map
      (fun j => Except.ok (ε := Unit) (m.accounts.get? ((m.current_index + j) % m.accounts.length)))
      = m.accounts.map (fun a => .ok (some a)) := by
    have hcong : (List.range m.accounts.length).map
        (fun j => Except.ok (ε := Unit) (m.accounts.get? ((m.current_index + j) % m.accounts.length)))
        = (List.range m.accounts.length).map (fun j => Except.ok (m.accounts.get? j)) := by
      refine List.map_congr_left ?_
      intro j hj
      rw [List.mem_range] at hj
      rw [hidx, Nat.zero_add, Nat.mod_eq_of_lt hj]
    rw [hcong]
    rw [show (fun j => Except.ok (ε := Unit) (m.accounts.get? j))
          = (Except.ok ∘ fun j => m.accounts.get? j) from rfl]
    rw [← List.map_map, map_get?_range, List.map_map]
    rfl
  constructor
  · rw [key m.accounts.length]
    refine congrArg₂ _ hmapped ?_
    rw [hidx, Nat.zero_add, Nat.mod_self, ← hidx]
  · rw [key (m.accounts.length + 1)]
    simp only []
    rw [List.range_succ, List.map_append, List.map_cons, List.map_nil, hmapped]
    rw [hidx, Nat.zero_add, Nat.mod_self]

/-- Concrete clean test accounts. -/
def wAcctA : AccountInfo := { username := "alice", password := "pa" }

def wAcctB : AccountInfo := { username := "bob", password := "pb" }

def wPool : AccountManager := { accounts := [wAcctA, wAcctB], current_index := 0 }

/-- Witness for C1: a concrete two-account clean pool cycles
`alice, bob, alice`. -/
theorem c1_round_robin_cycle_witness :
    rotateCalls 0 2 wPool = ([.ok (some wAcctA), .ok (some wAcctB)], wPool) ∧
    (rotateCalls 0 3 wPool).1 = [.ok (some wAcctA), .ok (some wAcctB), .ok (some wAcctA)] := by
  have h := c1_round_robin_cycle 0 wPool (by decide) (by decide) (by decide)
  exact ⟨h.1.trans (by rfl), h.2.trans (by rfl)⟩

/-! ### Cursor invariant (claim C2) -/

lemma get?_set_self {α : Type} : ∀ (l : List α) (i : Nat) (b : α),
    i < l.length → (l.set i b).get? i = some b
  | [], i, b, h => by simp at h
  | x :: xs, 0, b, _ => rfl
  | x :: xs, i + 1, b, h => by
    have h' : i < xs.length := by simpa using h
    show (xs.set i b).get? i = some b
    exact get?_set_self xs i b h'

lemma map_set_unchanged {α β : Type} (f : α → β) (l : List α) (i : Nat) (a b : α)
    (ha : l.get? i = some a) (hfb : f b = f a) : (l.set i b).map f = l.map f := by
  rw [List.map_set]
  apply set_get?_self
  rw [List.get?_map, ha]
  simp [hfb]

/-- One unfolding of the selection loop. -/
lemma getNextGo_succ (now f : Nat) (m : AccountManager) :
    m.getNextGo now (f + 1) =
      (match m.accounts.get? m.current_index with
      | none => .error ()
      | some account =>
        if (account.is_available now).1 then
          .ok (some (m.current_index, (account.is_available now).2),
            AccountManager.mk (m.accounts.set m.current_index (account.is_available now).2)
              ((m.current_index + 1) % m.accounts.length))
        else AccountManager.getNextGo now f
          (AccountManager.mk (m.accounts.set m.current_index (account.is_available now).2)
            ((m.current_index + 1) % m.accounts.length))) := rfl

/-- One unfolding of the selection loop when the cursor read fails. -/
lemma getNextGo_succ_none (now f : Nat) (m : AccountManager)
    (ha : m.accounts.get? m.current_index = none) :
    m.getNextGo now (f + 1) = .error () := by
  rw [getNextGo_succ, ha]

/-- One unfolding of the selection loop when the cursor read succeeds. -/
lemma getNextGo_succ_some (now f : Nat) (m : AccountManager) (a : AccountInfo)
    (ha : m.accounts.get? m.current_index = some a) :
    m.getNextGo now (f + 1) =
      (if (a.is_available now).1 then
        .ok (some (m.current_index, (a.is_available now).2),
          AccountManager.mk (m.accounts.set m.current_index (a.is_available now).2)
            ((m.current_index + 1) % m.accounts.length))
      else AccountManager.getNextGo now f
        (AccountManager.mk (m.accounts.set m.current_index (a.is_available now).2)
          ((m.current_index + 1) % m.accounts.length))) := by
  rw [getNextGo_succ, ha]

/-- The selection loop, started with an in-range cursor, never raises
`IndexError`; it preserves the list length, the username sequence and
the enabled-flag sequence; a selected account is enabled and sits in the
result list at the reported index. -/
lemma getNextGo_ok (now : Nat) : ∀ (fuel : Nat) (m : AccountManager),
    m.current_index < m.accounts.length →
    ∃ r m', m.getNextGo now fuel = .ok (r, m') ∧
      m'.accounts.length = m.accounts.length ∧
      m'.current_index < m'.accounts.length ∧
      m'.accounts.map (fun a => a.username) = m.accounts.map (fun a => a.username) ∧
      m'.accounts.map (fun a => a.enabled) = m.accounts.map (fun a => a.enabled) ∧
      (∀ i acc, r = some (i, acc) → acc.enabled = true ∧ m'.accounts.get? i = some acc) := by
  intro fuel
  induction fuel with
  | zero =>
    intro m hi
    exact ⟨none, m, rfl, rfl, hi, rfl, rfl, by intro i acc h; cases h⟩
  | succ f ih =>
    intro m hi
    obtain ⟨a, ha⟩ := get?_isSome_of_lt _ _ hi
    have hlen : 0 < m.accounts.length := by omega
    obtain ⟨avail, a', hp⟩ : ∃ avail a', a.is_available now = (avail, a') := ⟨_, _, rfl⟩
    have hfst : (a.is_available now).1 = avail := by rw [hp]
    have hsnd : (a.is_available now).2 = a' := by rw [hp]
    have hstep : m.getNextGo now (f + 1) =
        (if avail then
          Except.ok (some (m.current_index, a'),
            AccountManager.mk (m.accounts.set m.current_index a')
              ((m.current_index + 1) % m.accounts.length))
        else AccountManager.getNextGo now f
          (AccountManager.mk (m.accounts.set m.current_index a')
            ((m.current_index + 1) % m.accounts.length))) := by
      rw [getNextGo_succ, ha]
      simp only [hfst, hsnd]
    have hlen2 : (m.accounts.set m.current_index a').length = m.accounts.length :=
      List.length_set m.accounts m.current_index a'
    have hi2 : ((m.current_index + 1) % m.accounts.length) < (m.accounts.set m.current_index a').length := by
      rw [hlen2]; exact Nat.mod_lt _ hlen
    have husr : (m.accounts.set m.current_index a').map (fun x => x.username)
        = m.accounts.map (fun x => x.username) :=
      map_set_unchanged _ _ _ a _ ha (by rw [← hsnd, isAvail_snd_username])
    have henb : (m.accounts.set m.current_index a').map (fun x => x.enabled)
        = m.accounts.map (fun x => x.enabled) :=
      map_set_unchanged _ _ _ a _ ha (by rw [← hsnd, isAvail_snd_enabled])
    cases avail with
    | true =>
      rw [if_pos rfl] at hstep
      refine ⟨some (m.current_index, a'),
        AccountManager.mk (m.accounts.set m.current_index a') ((m.current_index + 1) % m.accounts.length),
        hstep, hlen2, hi2, husr, henb, ?_⟩
      intro i acc hr
      injection hr with h
      injection h with h1 h2
      subst h1
      subst h2
      refine ⟨?_, get?_set_self _ _ _ hi⟩
      rw [← hsnd, isAvail_snd_enabled]
      exact isAvail_true_enabled now a hfst
    | false =>
      rw [if_neg (by simp)] at hstep
      obtain ⟨r, m', heq, hl, hc, hu, he, hsel⟩ := ih
        (AccountManager.mk (m.accounts.set m.current_index a') ((m.current_index + 1) % m.accounts.length)) hi2
      refine ⟨r, m', hstep.trans heq, ?_, hc, ?_, ?_, hsel⟩
      · rw [hl]; exact hlen2
      · rw [hu]; exact husr
      · rw [he]; exact henb

/-- Same result for `get_next_account_core` under the cursor invariant. -/
lemma get_next_core_ok (now : Nat) (m : AccountManager) (h : cursorOK m) :
    ∃ r m', m.get_next_account_core now = .ok (r, m') ∧
      m'.accounts.length = m.accounts.length ∧
      cursorOK m' ∧
      m'.accounts.map (fun a => a.username) = m.accounts.map (fun a => a.username) ∧
      m'.accounts.map (fun a => a.enabled) = m.accounts.map (fun a => a.enabled) ∧
      (∀ i acc, r = some (i, acc) → acc.enabled = true ∧ m'.accounts.get? i = some acc) := by
  unfold AccountManager.get_next_account_core
  by_cases hemp : m.accounts.isEmpty
  · rw [if_pos hemp]
    exact ⟨none, m, rfl, rfl, h, rfl, rfl, by intro i acc hr; cases hr⟩
  · rw [if_neg hemp]
    have hi : m.current_index < m.accounts.length := by
      rcases h with ⟨hnil, _⟩ | hlt
      · rw [hnil] at hemp; simp at hemp
      · exact hlt
    obtain ⟨r, m', heq, hl, hc, hu, he, hsel⟩ := getNextGo_ok now m.accounts.length m hi
    exact ⟨r, m', heq, hl, Or.inr hc, hu, he, hsel⟩

/-- **C2 counterexample.** Starting from a fresh manager, add `alice`
and `bob`, rotate once (cursor moves to 1), then remove `bob`:
`remove_account` does not reset or clamp the cursor, so the cursor (1)
now equals the list length (1) — violating the claimed invariant — and
the next `get_next_account` evaluates `self._accounts[1]` on a
one-element list, i.e. raises `IndexError`. -/
theorem c2_counterexample :
    (AccountManager.add_account "alice" "pa" "" { accounts := [], current_index := 0 })
      = (true, { accounts := [wAcctA], current_index := 0 }) ∧
    (AccountManager.add_account "bob" "pb" "" { accounts := [wAcctA], current_index := 0 })
      = (true, { accounts := [wAcctA, wAcctB], current_index := 0 }) ∧
    (AccountManager.get_next_account 7 { accounts := [wAcctA, wAcctB], current_index := 0 })
      = .ok (some wAcctA, { accounts := [wAcctA, wAcctB], current_index := 1 }) ∧
    (AccountManager.remove_account "bob" { accounts := [wAcctA, wAcctB], current_index := 1 })
      = (true, { accounts := [wAcctA], current_index := 1 }) ∧
    ¬ cursorOK { accounts := [wAcctA], current_index := 1 } ∧
    (AccountManager.get_next_account 7 { accounts := [wAcctA], current_index := 1 }) = .error () := by
  refine ⟨rfl, rfl, rfl, rfl, by decide, rfl⟩

/-- **C2 (amended).** `get_next_account` and `add_account` preserve the
cursor invariant, and `get_next_account` never indexes outside the
account list when the invariant holds on entry; `remove_account` and
`load_from_file`, however, leave the cursor untouched and can leave it
at or beyond the new list length (see the counterexample), after which
`get_next_account` raises `IndexError`. -/
theorem c2_cursor_invariant_amended (now : Nat) (m : AccountManager) (h : cursorOK m) :
    (∃ r m', m.get_next_account now = .ok (r, m') ∧ cursorOK m') ∧
    (∀ u p n, cursorOK ((m.add_account u p n).2)) := by
  constructor
  · obtain ⟨r, m', heq, _, hc, _, _, _⟩ := get_next_core_ok now m h
    refine ⟨r.map (fun x => x.2), m', ?_, hc⟩
    unfold AccountManager.get_next_account
    rw [heq]
  · intro u p n
    unfold AccountManager.add_account
    by_cases hdup : m.accounts.any (fun a => a.username == u)
    · rw [if_pos hdup]; exact h
    · rw [if_neg hdup]
      right
      simp only [List.length_append, List.length_cons, List.length_nil]
      rcases h with ⟨hnil, hz⟩ | hlt
      · rw [hnil, hz]; simp
      · omega

/-- Witness for the amended C2 on a concrete one-account manager. -/
theorem c2_cursor_invariant_amended_witness :
    (∃ r m', (AccountManager.get_next_account 3 { accounts := [wAcctA], current_index := 0 }) = .ok (r, m') ∧ cursorOK m') ∧
    (∀ u p n, cursorOK ((AccountManager.add_account u p n { accounts := [wAcctA], current_index := 0 }).2)) :=
  c2_cursor_invariant_amended 3 { accounts := [wAcctA], current_index := 0 } (by decide)

/-! ### Rate-limit cooldown and lazy reset (claim C3) -/

/-- **C3.** For an enabled account, `mark_rate_limited(A, 60)` followed
immediately by `is_available` yields `false`; evaluated 61 minutes
later it yields `true`, and the evaluation clears the deadline and
resets the hourly counter as a side effect. -/
theorem c3_cooldown_then_lazy_reset (now : Nat) (a : AccountInfo) (h : a.enabled = true) :
    ((a.mark_rate_limited now 60).is_available now).1 = false ∧
    ((a.mark_rate_limited now 60).is_available (now + 61)) =
      (true, { a with rate_limited_until := none, requests_this_hour := 0 }) := by
  unfold AccountInfo.mark_rate_limited AccountInfo.is_available
  refine ⟨?_, ?_⟩
  · simp [h]
  · simp only [h]
    have h1 : ¬ (now + 61 < now + 60) := by omega
    simp [h1]

/-- Witness for C3 at `now = 5` on a concrete account. -/
theorem c3_cooldown_then_lazy_reset_witness :
    ((wAcctA.mark_rate_limited 5 60).is_available 5).1 = false ∧
    ((wAcctA.mark_rate_limited 5 60).is_available 66) =
      (true, { wAcctA with rate_limited_until := none, requests_this_hour := 0 }) :=
  c3_cooldown_then_lazy_reset 5 wAcctA rfl

/-! ### Frame effect of availability evaluation (claim C10) -/

/-- A disabled account with an expired rate-limit deadline. -/
def dAcct : AccountInfo :=
  { username := "carol", password := "pc", enabled := false,
    requests_this_hour := 7, rate_limited_until := some 3 }

/-- **C10 counterexample.** For a *disabled* account whose rate-limit
deadline has passed, evaluating `is_available` leaves the account
completely unchanged (the `enabled` check returns early, before the
lazy-reset branch): the deadline is not cleared and the hourly counter
is not reset, contradicting the claim's quantification over every
account with a passed deadline. -/
theorem c10_counterexample :
    3 ≤ 10 ∧
    (dAcct.is_available 10).2 = dAcct ∧
    (dAcct.is_available 10).2.rate_limited_until = some 3 ∧
    (dAcct.is_available 10).2.requests_this_hour = 7 := by
  decide

/-- An enabled account with an expired rate-limit deadline. -/
def eAcct : AccountInfo :=
  { username := "dave", password := "pd", requests_this_hour := 42, rate_limited_until := some 3 }

/-- **C10 (amended).** For every *enabled* account whose rate-limit
deadline has passed, any evaluation of `is_available` — including the
evaluations performed by the reporting paths `get_stats` and
`available_count` — sets `rate_limited_until` to `None` and
`requests_this_hour` to 0 while leaving every other field unchanged;
accounts not in that situation are left unchanged (`lazyReset`). -/
theorem c10_lazy_reset_frame_amended (now t : Nat) (a : AccountInfo) (m : AccountManager)
    (ha : a.enabled = true) (hrl : a.rate_limited_until = some t) (ht : t ≤ now) :
    (a.is_available now).2 = { a with rate_limited_until := none, requests_this_hour := 0 } ∧
    ((AccountManager.available_count now m).2).accounts = m.accounts.map (lazyReset now) ∧
    ((AccountManager.get_stats now m).2).accounts = m.accounts.map (lazyReset now) := by
  refine ⟨?_, ?_, ?_⟩
  · rw [isAvail_snd_eq_lazyReset]
    unfold lazyReset
    rw [hrl]
    simp [ha, ht]
  · unfold AccountManager.available_count
    simp only [List.map_map]
    refine List.map_congr_left ?_
    intro x _
    exact isAvail_snd_eq_lazyReset now x
  · unfold AccountManager.get_stats
    simp only [List.map_map]
    refine List.map_congr_left ?_
    intro x _
    simp only [Function.comp_apply]
    rw [isAvail_snd_idem]
    exact isAvail_snd_eq_lazyReset now x

/-- Witness for the amended C10 at a concrete enabled, expired account
inside a two-account manager. -/
theorem c10_lazy_reset_frame_amended_witness :
    (eAcct.is_available 5).2 = { eAcct with rate_limited_until := none, requests_this_hour := 0 } ∧
    ((AccountManager.available_count 5 (AccountManager.mk [eAcct, dAcct] 0)).2).accounts
      = [eAcct, dAcct].map (lazyReset 5) ∧
    ((AccountManager.get_stats 5 (AccountManager.mk [eAcct, dAcct] 0)).2).accounts
      = [eAcct, dAcct].map (lazyReset 5) :=
  c10_lazy_reset_frame_amended 5 3 eAcct (AccountManager.mk [eAcct, dAcct] 0) rfl rfl (by decide)

/-! ### Execution engine (`app/services/instaloader_service.py`) -/

/-- An `Instaloader` client handle: either the shared default
unauthenticated loader (`self._loader`) or the per-account cached
loader (`self._loaders[username]`). -/
inductive Loader where
  | dflt : Loader
  | forAccount (username : String) : Loader
deriving DecidableEq, Repr

/-- The instaloader exception kinds distinguished by
`map_instaloader_exception` (instaloader_service.py lines 62-92). -/
inductive InstaExc where
  | badCredentials
  | twoFactorRequired
  | loginRequiredExc
  | profileNotExists
  | privateNotFollowed
  | queryNotFound
  | tooManyRequests
  | connection
  | otherInstaloader
  | unexpected
deriving DecidableEq, Repr

/-- An `APIException` as constructed in `app/core/exceptions.py`,
reduced to its outward status code and machine-readable error code
(the free-text message, which embeds `str(exc)`, is elided). -/
structure APIError where
  status_code : Nat
  error_code : String
deriving DecidableEq, Repr

/-- `map_instaloader_exception` (instaloader_service.py lines 62-92),
composed with the `APIException` subclass constructors of
`app/core/exceptions.py`. -/
def map_instaloader_exception : InstaExc → APIError
  | .badCredentials => { status_code := 401, error_code := "INVALID_CREDENTIALS" }
  | .twoFactorRequired => { status_code := 401, error_code := "TWO_FACTOR_REQUIRED" }
  | .loginRequiredExc => { status_code := 401, error_code := "LOGIN_REQUIRED" }
  | .profileNotExists => { status_code := 404, error_code := "PROFILE_NOT_FOUND" }
  | .privateNotFollowed => { status_code := 403, error_code := "PRIVATE_PROFILE" }
  | .queryNotFound => { status_code := 404, error_code := "POST_NOT_FOUND" }
  | .tooManyRequests => { status_code := 429, error_code := "RATE_LIMIT_EXCEEDED" }
  | .connection => { status_code := 503, error_code := "SERVICE_UNAVAILABLE" }
  | .otherInstaloader => { status_code := 500, error_code := "INTERNAL_ERROR" }
  | .unexpected => { status_code := 500, error_code := "INTERNAL_ERROR" }

/-- The `LoginRequiredError` raised by `_run_with_rotation` when auth is
required but no account and no ambient session is available. -/
def loginRequiredError : APIError := { status_code := 401, error_code := "LOGIN_REQUIRED" }

/-- The engine state of `InstaloaderService` relevant to rotation:
the account manager, the set of usernames with a cached per-account
loader (`self._loaders`), the ambient session (`self._logged_in_user`),
the account used for the last request (`self._current_account`) and
whether the shared default loader has been lazily constructed
(`self._loader is not None`). -/
structure EngineState where
  manager : AccountManager
  loaders : List String
  logged_in_user : Option String
  current_account : Option AccountInfo
  loader_built : Bool
deriving DecidableEq, Repr

/-- `InstaloaderService._get_rotated_loader` (instaloader_service.py
lines 257-282).  `buildOk u` tells whether constructing and logging in
a fresh client for username `u` succeeds (`_get_loader_for_account`,
lines 173-255; the outcome is an external fact about sessions and
credentials).  A cached loader is returned without reconstruction; a
fresh successful construction is cached; a failed construction records
the error on the account, disables it (`account.enabled = False`) and
recursively retries.  The Python recursion is syntactically unbounded,
so the embedding uses explicit fuel: `none` means the fuel was
exhausted before the recursion terminated. -/
def get_rotated_loader (now : Nat) (buildOk : String → Bool) :
    Nat → EngineState → Option (Except Unit (Loader × Option (Nat × AccountInfo) × EngineState))
  | 0, _ => none
  | fuel + 1, st =>
    match st.manager.get_next_account_core now with
    | .error e => some (.error e)
    | .ok (none, mgr') =>
      some (.ok (Loader.dflt, none,
        { st with manager := mgr', current_account := none, loader_built := true }))
    | .ok (some (i, account), mgr') =>
      if st.loaders.contains account.username || buildOk account.username then
        some (.ok (Loader.forAccount account.username, some (i, account),
          { st with manager := mgr',
                    loaders := if st.loaders.contains account.username then st.loaders
                               else account.username :: st.loaders,
                    current_account := some account }))
      else
        let disabled : AccountInfo := { account with enabled := false, last_error := some "login failed" }
        let mgr2 : AccountManager := { mgr' with accounts := mgr'.accounts.set i disabled }
        get_rotated_loader now buildOk fuel { st with manager := mgr2 }

/-- `InstaloaderService._run_with_rotation` (instaloader_service.py
lines 393-452).  `work` is the unit of work `func` as a function of the
loader it is handed; its outcome (`Except InstaExc`) models the value
returned or the instaloader exception raised on the executor thread.
On success `record_request` is called on the selected account; on
`TooManyRequestsException` the account is marked rate limited for 60
minutes and the mapped `RateLimitError` propagates; on any other
exception the error is recorded on the account (`str(exc)` modelled as
a fixed string) and the mapped error propagates. -/
def run_with_rotation {α : Type} (now : Nat) (buildOk : String → Bool)
    (work : Loader → Except InstaExc α) (require_auth : Bool) (fuel : Nat) (st : EngineState) :
    Option (Except Unit (Except APIError α × EngineState)) :=
  match get_rotated_loader now buildOk fuel st with
  | none => none
  | some (.error e) => some (.error e)
  | some (.ok (loader, account?, st')) =>
    if require_auth && account?.isNone && st'.logged_in_user.isNone then
      some (.ok (.error loginRequiredError, st'))
    else
      match work loader with
      | .ok v =>
        match account? with
        | some (i, account) =>
          some (.ok (.ok v,
            { st' with manager := { st'.manager with
                accounts := st'.manager.accounts.set i (account.record_request now) } }))
        | none => some (.ok (.ok v, st'))
      | .error .tooManyRequests =>
        match account? with
        | some (i, account) =>
          some (.ok (.error (map_instaloader_exception .tooManyRequests),
            { st' with manager := { st'.manager with
                accounts := st'.manager.accounts.set i (account.mark_rate_limited now 60) } }))
        | none => some (.ok (.error (map_instaloader_exception .tooManyRequests), st'))
      | .error e =>
        match account? with
        | some (i, account) =>
          some (.ok (.error (map_instaloader_exception e),
            { st' with manager := { st'.manager with
                accounts := st'.manager.accounts.set i { account with last_error := some "error" } } }))
        | none => some (.ok (.error (map_instaloader_exception e), st'))

/-- One unfolding of `get_rotated_loader`. -/
lemma get_rotated_loader_succ (now : Nat) (buildOk : String → Bool) (f : Nat) (st : EngineState) :
    get_rotated_loader now buildOk (f + 1) st =
      (match st.manager.get_next_account_core now with
      | .error e => some (.error e)
      | .ok (none, mgr') =>
        some (.ok (Loader.dflt, none,
          { st with manager := mgr', current_account := none, loader_built := true }))
      | .ok (some (i, account), mgr') =>
        if st.loaders.contains account.username || buildOk account.username then
          some (.ok (Loader.forAccount account.username, some (i, account),
            { st with manager := mgr',
                      loaders := if st.loaders.contains account.username then st.loaders
                                 else account.username :: st.loaders,
                      current_account := some account }))
        else get_rotated_loader now buildOk f
          { st with manager := (AccountManager.mk
              (mgr'.accounts.set i ({ account with enabled := false, last_error := some "login failed" }))
              mgr'.current_index) }) := rfl

/-- Unfolding of `get_rotated_loader` when selection raises. -/
lemma get_rotated_loader_succ_err (now : Nat) (buildOk : String → Bool) (f : Nat)
    (st : EngineState) (e : Unit)
    (hcore : st.manager.get_next_account_core now = .error e) :
    get_rotated_loader now buildOk (f + 1) st = some (.error e) := by
  rw [get_rotated_loader_succ, hcore]

/-- Unfolding of `get_rotated_loader` when no account is available. -/
lemma get_rotated_loader_succ_none (now : Nat) (buildOk : String → Bool) (f : Nat)
    (st : EngineState) (mgr' : AccountManager)
    (hcore : st.manager.get_next_account_core now = .ok (none, mgr')) :
    get_rotated_loader now buildOk (f + 1) st =
      some (.ok (Loader.dflt, none,
        { st with manager := mgr', current_account := none, loader_built := true })) := by
  rw [get_rotated_loader_succ, hcore]

/-- Unfolding of `get_rotated_loader` when an account is selected. -/
lemma get_rotated_loader_succ_sel (now : Nat) (buildOk : String → Bool) (f : Nat)
    (st : EngineState) (i : Nat) (account : AccountInfo) (mgr' : AccountManager)
    (hcore : st.manager.get_next_account_core now = .ok (some (i, account), mgr')) :
    get_rotated_loader now buildOk (f + 1) st =
      (if st.loaders.contains account.username || buildOk account.username then
        some (.ok (Loader.forAccount account.username, some (i, account),
          { st with manager := mgr',
                    loaders := if st.loaders.contains account.username then st.loaders
                               else account.username :: st.loaders,
                    current_account := some account }))
      else get_rotated_loader now buildOk f
        { st with manager := (AccountManager.mk
            (mgr'.accounts.set i ({ account with enabled := false, last_error := some "login failed" }))
            mgr'.current_index) }) := by
  rw [get_rotated_loader_succ, hcore]

/-! ### Rate-limit feedback in the engine (claim C4) -/

/-- **C4.** If an account was selected by rotation and the unit of work
raises `TooManyRequestsException`, then `_run_with_rotation` marks that
account rate-limited for 60 minutes and propagates the mapped
`RateLimitError` (outward status 429, code `RATE_LIMIT_EXCEEDED`); the
selected account's request counter is not incremented (no
`record_request`), and the outcome depends only on the work's behaviour
on the selected loader — the work is never re-run against a different
account. -/
theorem c4_rate_limit_marks_and_propagates {α : Type} (now : Nat) (buildOk : String → Bool)
    (work work2 : Loader → Except InstaExc α) (require_auth : Bool) (fuel : Nat)
    (st st' : EngineState) (loader : Loader) (i : Nat) (acc : AccountInfo)
    (hrot : get_rotated_loader now buildOk fuel st = some (.ok (loader, some (i, acc), st')))
    (hwork : work loader = .error .tooManyRequests) :
    (run_with_rotation now buildOk work require_auth fuel st =
      some (.ok (.error { status_code := 429, error_code := "RATE_LIMIT_EXCEEDED" },
        { st' with manager := { st'.manager with
            accounts := st'.manager.accounts.set i
              ({ acc with rate_limited_until := some (now + 60) }) } }))) ∧
    (work2 loader = work loader →
      run_with_rotation now buildOk work2 require_auth fuel st =
        run_with_rotation now buildOk work require_auth fuel st) := by
  constructor
  · unfold run_with_rotation
    rw [hrot]
    simp [hwork, AccountInfo.mark_rate_limited, map_instaloader_exception]
  · intro h2
    unfold run_with_rotation
    rw [hrot]
    simp only [h2]

/-- Concrete engine state: a one-account pool, nothing cached, no
ambient session. -/
def engineSt0 : EngineState :=
  { manager := AccountManager.mk [wAcctA] 0, loaders := [], logged_in_user := none,
    current_account := none, loader_built := false }

/-- `engineSt0` after selecting `alice` and caching her loader. -/
def engineStSel : EngineState :=
  { manager := AccountManager.mk [wAcctA] 0, loaders := ["alice"], logged_in_user := none,
    current_account := some wAcctA, loader_built := false }

/-- A unit of work that raises `TooManyRequestsException`. -/
def tmrWork : Loader → Except InstaExc Nat := fun _ => .error .tooManyRequests

/-- Witness for C4 on `engineSt0`. -/
theorem c4_rate_limit_marks_and_propagates_witness :
    run_with_rotation 0 (fun _ => true) tmrWork false 2 engineSt0 =
      some (.ok (.error { status_code := 429, error_code := "RATE_LIMIT_EXCEEDED" },
        { engineStSel with manager := { engineStSel.manager with
            accounts := engineStSel.manager.accounts.set 0
              ({ wAcctA with rate_limited_until := some 60 }) } })) :=
  (c4_rate_limit_marks_and_propagates 0 (fun _ => true) tmrWork tmrWork false 2
    engineSt0 engineStSel (Loader.forAccount "alice") 0 wAcctA rfl rfl).1

/-! ### Fallback when no account is selectable (claim C5) -/

lemma getNextGo_allFalse (now : Nat) : ∀ (fuel : Nat) (m : AccountManager),
    (∀ a ∈ m.accounts, (a.is_available now).1 = false) →
    m.current_index < m.accounts.length →
    ∃ m', m.getNextGo now fuel = .ok (none, m') ∧ m'.accounts = m.accounts := by
  intro fuel
  induction fuel with
  | zero => intro m _ _; exact ⟨m, rfl, rfl⟩
  | succ f ih =>
    intro m hall hi
    obtain ⟨a, ha⟩ := get?_isSome_of_lt _ _ hi
    have hmem : a ∈ m.accounts := List.get?_mem ha
    have hfalse : (a.is_available now).1 = false := hall a hmem
    have hsnd : (a.is_available now).2 = a := isAvail_false_snd now a hfalse
    have hset : m.accounts.set m.current_index a = m.accounts := set_get?_self _ _ _ ha
    have hlen : 0 < m.accounts.length := by omega
    have hstep : m.getNextGo now (f + 1) =
        AccountManager.getNextGo now f
          (AccountManager.mk m.accounts ((m.current_index + 1) % m.accounts.length)) := by
      rw [getNextGo_succ, ha]
      simp only [hfalse, hsnd, hset, Bool.false_eq_true, if_false]
    obtain ⟨m', heq, hacc⟩ := ih
      (AccountManager.mk m.accounts ((m.current_index + 1) % m.accounts.length))
      hall (Nat.mod_lt _ hlen)
    exact ⟨m', hstep.trans heq, hacc⟩

lemma get_next_core_allFalse (now : Nat) (m : AccountManager)
    (hall : ∀ a ∈ m.accounts, (a.is_available now).1 = false) (hcur : cursorOK m) :
    ∃ m', m.get_next_account_core now = .ok (none, m') ∧ m'.accounts = m.accounts := by
  unfold AccountManager.get_next_account_core
  by_cases hemp : m.accounts.isEmpty
  · rw [if_pos hemp]; exact ⟨m, rfl, rfl⟩
  · rw [if_neg hemp]
    have hi : m.current_index < m.accounts.length := by
      rcases hcur with ⟨hnil, _⟩ | hlt
      · rw [hnil] at hemp; simp at hemp
      · exact hlt
    exact getNextGo_allFalse now m.accounts.length m hall hi

/-- **C5.** When no account in the pool is selectable: rotation falls
through to the single shared default loader (lazily constructed:
`loader_built` becomes true) with no account selected; then
`run_with_rotation` with `require_auth = true` and no ambient session
fails with the login-required error, while with `require_auth = false`,
or with an ambient authenticated session present, it runs the work on
the default unauthenticated loader and succeeds — account
unavailability alone does not fail the call. -/
theorem c5_require_auth_vs_default_fallback {α : Type} (now : Nat) (buildOk : String → Bool)
    (work : Loader → Except InstaExc α) (fuel : Nat) (st : EngineState) (v : α)
    (hall : ∀ a ∈ st.manager.accounts, (a.is_available now).1 = false)
    (hcur : cursorOK st.manager) :
    (∃ st', get_rotated_loader now buildOk (fuel + 1) st = some (.ok (Loader.dflt, none, st')) ∧
      st'.loader_built = true ∧ st'.manager.accounts = st.manager.accounts ∧
      st'.logged_in_user = st.logged_in_user) ∧
    (st.logged_in_user = none →
      ∃ st', run_with_rotation now buildOk work true (fuel + 1) st =
        some (.ok (.error loginRequiredError, st')) ∧
        loginRequiredError.status_code = 401 ∧ loginRequiredError.error_code = "LOGIN_REQUIRED") ∧
    (work Loader.dflt = .ok v →
      ∃ st', run_with_rotation now buildOk work false (fuel + 1) st = some (.ok (.ok v, st'))) ∧
    (∀ u, st.logged_in_user = some u → work Loader.dflt = .ok v →
      ∃ st', run_with_rotation now buildOk work true (fuel + 1) st = some (.ok (.ok v, st'))) := by
  obtain ⟨mgr', hcore, haccs⟩ := get_next_core_allFalse now st.manager hall hcur
  have hrot : get_rotated_loader now buildOk (fuel + 1) st =
      some (.ok (Loader.dflt, none,
        { st with manager := mgr', current_account := none, loader_built := true })) := by
    unfold get_rotated_loader
    rw [hcore]
  refine ⟨⟨_, hrot, rfl, haccs, rfl⟩, ?_, ?_, ?_⟩
  · intro hnolog
    refine ⟨{ st with manager := mgr', current_account := none, loader_built := true }, ?_, rfl, rfl⟩
    unfold run_with_rotation
    rw [hrot]
    simp [hnolog]
  · intro hwork
    refine ⟨{ st with manager := mgr', current_account := none, loader_built := true }, ?_⟩
    unfold run_with_rotation
    rw [hrot]
    simp [hwork]
  · intro u hlog hwork
    refine ⟨{ st with manager := mgr', current_account := none, loader_built := true }, ?_⟩
    unfold run_with_rotation
    rw [hrot]
    simp [hlog, hwork]

/-- Engine state with an all-unavailable pool: one disabled account. -/
def engineStDis : EngineState :=
  { manager := AccountManager.mk [dAcct] 0, loaders := [], logged_in_user := none,
    current_account := none, loader_built := false }

/-- A unit of work that succeeds with value 7. -/
def okWork : Loader → Except InstaExc Nat := fun _ => .ok 7

/-- Witness for C5 on a pool containing only a disabled account, with
every hypothesis discharged: rotation falls back to the default loader,
`require_auth = true` yields the login-required error, and
`require_auth = false` succeeds with the work's value. -/
theorem c5_require_auth_vs_default_fallback_witness :
    (∃ st', get_rotated_loader 9 (fun _ => true) 1 engineStDis = some (.ok (Loader.dflt, none, st')) ∧
      st'.loader_built = true ∧ st'.manager.accounts = engineStDis.manager.accounts ∧
      st'.logged_in_user = engineStDis.logged_in_user) ∧
    (∃ st', run_with_rotation 9 (fun _ => true) okWork true 1 engineStDis =
      some (.ok (.error loginRequiredError, st')) ∧
      loginRequiredError.status_code = 401 ∧ loginRequiredError.error_code = "LOGIN_REQUIRED") ∧
    (∃ st', run_with_rotation 9 (fun _ => true) okWork false 1 engineStDis = some (.ok (.ok 7, st'))) :=
  have h := c5_require_auth_vs_default_fallback 9 (fun _ => true) okWork 0 engineStDis 7
    (by decide) (by decide)
  ⟨h.1, h.2.1 rfl, h.2.2.1 rfl⟩

/-! ### Bounded construction-failure retry (claim C6) -/

/-- Number of enabled accounts in the pool. -/
def countEnabled (m : AccountManager) : Nat :=
  (m.accounts.map (fun a => a.enabled)).count true

lemma count_true_set_false : ∀ (l : List Bool) (i : Nat), l.get? i = some true →
    (l.set i false).count true + 1 = l.count true
  | [], i, h => by cases i <;> exact Option.noConfusion h
  | x :: xs, 0, h => by
    have hx : x = true := Option.some.inj h
    subst hx
    simp [List.count_cons]
  | x :: xs, i + 1, h => by
    have h' : xs.get? i = some true := h
    show (x :: xs.set i false).count true + 1 = (x :: xs).count true
    have := count_true_set_false xs i h'
    simp only [List.count_cons]
    omega

lemma get?_lt_length {α : Type} : ∀ (l : List α) (i : Nat) (a : α), l.get? i = some a → i < l.length
  | [], i, a, h => by cases i <;> exact Option.noConfusion h
  | x :: xs, 0, a, _ => by simp
  | x :: xs, i + 1, a, h => by
    have h' : xs.get? i = some a := h
    have := get?_lt_length xs i a h'
    simp only [List.length_cons]
    omega

lemma countEnabled_set_disabled (m : AccountManager) (i : Nat) (acc b : AccountInfo) (c : Nat)
    (ha : m.accounts.get? i = some acc) (hacc : acc.enabled = true) (hb : b.enabled = false) :
    countEnabled (AccountManager.mk (m.accounts.set i b) c) + 1 = countEnabled m := by
  unfold countEnabled
  simp only [List.map_set]
  rw [hb]
  apply count_true_set_false
  rw [List.get?_map, ha]
  simp [hacc]

/-- Whenever the selection loop reports a selected account, that account
is enabled, sits at the reported index of the resulting list, and the
enabled-flag sequence is unchanged (no cursor hypothesis needed). -/
lemma getNextGo_sel (now : Nat) : ∀ (fuel : Nat) (m : AccountManager) (i : Nat)
    (acc : AccountInfo) (m' : AccountManager),
    m.getNextGo now fuel = .ok (some (i, acc), m') →
    acc.enabled = true ∧ m'.accounts.get? i = some acc ∧
      m'.accounts.map (fun a => a.enabled) = m.accounts.map (fun a => a.enabled) := by
  intro fuel
  induction fuel with
  | zero =>
    intro m i acc m' h
    injection h with h'
    injection h' with h1 _
    exact Option.noConfusion h1
  | succ f ih =>
    intro m i acc m' h
    cases ha : m.accounts.get? m.current_index with
    | none =>
      rw [getNextGo_succ_none now f m ha] at h
      exact Except.noConfusion h
    | some a =>
      rw [getNextGo_succ_some now f m a ha] at h
      have henb : (m.accounts.set m.current_index (a.is_available now).2).map (fun x => x.enabled)
          = m.accounts.map (fun x => x.enabled) :=
        map_set_unchanged _ _ _ a _ ha (isAvail_snd_enabled now a)
      by_cases hav : (a.is_available now).1 = true
      · rw [if_pos hav] at h
        injection h with h'
        injection h' with h1 h2
        injection h1 with h3
        obtain ⟨hi', hacc'⟩ : m.current_index = i ∧ (a.is_available now).2 = acc := by
          injection h3 with h4 h5
          exact ⟨h4, h5⟩
        subst hi'
        subst hacc'
        subst h2
        refine ⟨?_, ?_, henb⟩
        · rw [isAvail_snd_enabled]
          exact isAvail_true_enabled now a hav
        · exact get?_set_self _ _ _ (get?_lt_length _ _ _ ha)
      · rw [if_neg hav] at h
        obtain ⟨he, hg, hmap⟩ := ih _ _ _ _ h
        exact ⟨he, hg, hmap.trans henb⟩

/-- Same, for `get_next_account_core`. -/
lemma get_next_core_sel (now : Nat) (m : AccountManager) (i : Nat) (acc : AccountInfo)
    (m' : AccountManager)
    (h : m.get_next_account_core now = .ok (some (i, acc), m')) :
    acc.enabled = true ∧ m'.accounts.get? i = some acc ∧
      m'.accounts.map (fun a => a.enabled) = m.accounts.map (fun a => a.enabled) := by
  unfold AccountManager.get_next_account_core at h
  by_cases hemp : m.accounts.isEmpty
  · rw [if_pos hemp] at h
    injection h with h'
    injection h' with h1 _
    exact Option.noConfusion h1
  · rw [if_neg hemp] at h
    exact getNextGo_sel now m.accounts.length m i acc m' h

/-- Each recursion step of `_get_rotated_loader` disables one
previously-enabled account, so the number of enabled accounts strictly
decreases: with fuel exceeding the enabled count, the recursion
completes. -/
lemma get_rotated_loader_total (now : Nat) (buildOk : String → Bool) :
    ∀ (fuel : Nat) (st : EngineState), countEnabled st.manager < fuel →
    (get_rotated_loader now buildOk fuel st).isSome = true := by
  intro fuel
  induction fuel with
  | zero => intro st h; omega
  | succ f ih =>
    intro st h
    cases hcore : st.manager.get_next_account_core now with
    | error e => rw [get_rotated_loader_succ_err now buildOk f st e hcore]; rfl
    | ok p =>
      obtain ⟨r, mgr'⟩ := p
      cases r with
      | none => rw [get_rotated_loader_succ_none now buildOk f st mgr' hcore]; rfl
      | some sel =>
        obtain ⟨i, account⟩ := sel
        rw [get_rotated_loader_succ_sel now buildOk f st i account mgr' hcore]
        by_cases hbuild : (st.loaders.contains account.username || buildOk account.username) = true
        · rw [if_pos hbuild]
          rfl
        · rw [if_neg hbuild]
          obtain ⟨he, hg, hmap⟩ := get_next_core_sel now st.manager i account mgr' hcore
          have hpres : countEnabled mgr' = countEnabled st.manager := by
            unfold countEnabled
            rw [hmap]
          have hdec := countEnabled_set_disabled mgr' i account
            { account with enabled := false, last_error := some "login failed" }
            mgr'.current_index hg he rfl
          have hsum : countEnabled (AccountManager.mk
              (mgr'.accounts.set i { account with enabled := false, last_error := some "login failed" })
              mgr'.current_index) + 1 = countEnabled st.manager := by
            rw [hdec, hpres]
          apply ih
          show countEnabled (AccountManager.mk
              (mgr'.accounts.set i { account with enabled := false, last_error := some "login failed" })
              mgr'.current_index) < f
          omega

lemma countEnabled_le_length (m : AccountManager) : countEnabled m ≤ m.accounts.length := by
  unfold countEnabled
  have := List.count_le_length true (m.accounts.map (fun a => a.enabled))
  simpa using this

/-- When every account fails construction and nothing is cached, the
recursion disables the accounts one by one and ends at the default
loader. -/
lemma get_rotated_allFail (now : Nat) (buildOk : String → Bool) :
    ∀ (fuel : Nat) (st : EngineState), countEnabled st.manager < fuel →
    st.loaders = [] →
    (∀ u ∈ st.manager.accounts.map (fun a => a.username), buildOk u = false) →
    cursorOK st.manager →
    ∃ st', get_rotated_loader now buildOk fuel st = some (.ok (Loader.dflt, none, st')) := by
  intro fuel
  induction fuel with
  | zero => intro st h; omega
  | succ f ih =>
    intro st h hld hbf hcur
    obtain ⟨r, mgr', hcore, hlen, hcur', husr, henb, hsel⟩ := get_next_core_ok now st.manager hcur
    cases r with
    | none => exact ⟨_, get_rotated_loader_succ_none now buildOk f st mgr' hcore⟩
    | some sel =>
      obtain ⟨i, account⟩ := sel
      obtain ⟨he, hg⟩ := hsel i account rfl
      rw [get_rotated_loader_succ_sel now buildOk f st i account mgr' hcore]
      have humem : account.username ∈ mgr'.accounts.map (fun a => a.username) :=
        List.mem_map_of_mem _ (List.get?_mem hg)
      have hbacc : buildOk account.username = false := by
        apply hbf
        rw [← husr]
        exact humem
      have hcond : (st.loaders.contains account.username || buildOk account.username) = false := by
        rw [hld, hbacc]
        rfl
      rw [hcond]
      simp only [Bool.false_eq_true, if_false]
      have hpres : countEnabled mgr' = countEnabled st.manager := by
        unfold countEnabled; rw [henb]
      have hdec := countEnabled_set_disabled mgr' i account
        { account with enabled := false, last_error := some "login failed" }
        mgr'.current_index hg he rfl
      apply ih
      · have hsum : countEnabled (AccountManager.mk
            (mgr'.accounts.set i { account with enabled := false, last_error := some "login failed" })
            mgr'.current_index) + 1 = countEnabled st.manager := by
          rw [hdec, hpres]
        show countEnabled (AccountManager.mk
            (mgr'.accounts.set i { account with enabled := false, last_error := some "login failed" })
            mgr'.current_index) < f
        omega
      · exact hld
      · intro u hu
        apply hbf
        rw [← husr]
        have hmu : (mgr'.accounts.set i
            ({ account with enabled := false, last_error := some "login failed" })).map (fun a => a.username)
            = mgr'.accounts.map (fun a => a.username) :=
          map_set_unchanged _ _ _ account _ hg rfl
        rw [← hmu]
        exact hu
      · right
        simp only [List.length_set]
        rcases hcur' with ⟨hnil, _⟩ | hlt
        · rw [hnil] at hg
          cases i <;> exact Option.noConfusion hg
        · exact hlt

/-- **C6.** The retry-next-account recursion of `_get_rotated_loader`
terminates within pool-size-plus-one unfoldings for every state and
every construction oracle (each failure disables the selected,
previously enabled account); moreover when nothing is cached and every
account in the pool fails construction, the call falls back to the
default unauthenticated loader with no account selected, rather than
recursing forever. -/
theorem c6_construction_retry_bounded (now : Nat) (buildOk : String → Bool) (st : EngineState) :
    (get_rotated_loader now buildOk (st.manager.accounts.length + 1) st).isSome = true ∧
    (st.loaders = [] →
      (∀ u ∈ st.manager.accounts.map (fun a => a.username), buildOk u = false) →
      cursorOK st.manager →
      ∃ st', get_rotated_loader now buildOk (st.manager.accounts.length + 1) st
        = some (.ok (Loader.dflt, none, st'))) := by
  have hfuel : countEnabled st.manager < st.manager.accounts.length + 1 := by
    have := countEnabled_le_length st.manager
    omega
  exact ⟨get_rotated_loader_total now buildOk _ st hfuel,
    fun hld hbf hcur => get_rotated_allFail now buildOk _ st hfuel hld hbf hcur⟩

/-- Engine state for the C6 witness: two enabled accounts, empty loader
cache. -/
def engineSt2 : EngineState :=
  { manager := AccountManager.mk [wAcctA, wAcctB] 0, loaders := [], logged_in_user := none,
    current_account := none, loader_built := false }

/-- Witness for C6: with a construction oracle that always fails, the
two-account pool is exhausted within 3 unfoldings and the default
loader is returned (all hypotheses discharged). -/
theorem c6_construction_retry_bounded_witness :
    (get_rotated_loader 4 (fun _ => false) 3 engineSt2).isSome = true ∧
    (∃ st', get_rotated_loader 4 (fun _ => false) 3 engineSt2
      = some (.ok (Loader.dflt, none, st'))) :=
  ⟨(c6_construction_retry_bounded 4 (fun _ => false) engineSt2).1,
   (c6_construction_retry_bounded 4 (fun _ => false) engineSt2).2 rfl (by decide) (by decide)⟩

/-! ### In-process cache (`app/core/cache.py`) -/

/-- `InMemoryCache` state: the Python dict `self._cache` is an
insertion-ordered map from key to `(value, expires_at)`; it is modelled
as an association list with unique keys, pairing each key with the value
and the absolute expiry time. -/
structure InMemoryCache (α : Type) where
  cache : List (String × α × Nat)
  max_size : Nat
deriving DecidableEq, Repr

/-- Dict lookup (`self._cache[key]` guarded by `key in self._cache`). -/
def lookupKey {α : Type} (k : String) : List (String × α × Nat) → Option (α × Nat)
  | [] => none
  | e :: rest => if e.1 == k then some e.2 else lookupKey k rest

/-- Dict deletion (`del self._cache[k]`): removes the entry for `k`. -/
def eraseKey {α : Type} (k : String) (l : List (String × α × Nat)) : List (String × α × Nat) :=
  l.filter (fun e => !(e.1 == k))

/-- Dict assignment (`self._cache[key] = (value, expires)`).  Python
dicts keep the original position on reassignment and append new keys. -/
def dictSet {α : Type} (l : List (String × α × Nat)) (k : String) (v : α) (e : Nat) :
    List (String × α × Nat) :=
  if l.any (fun ent => ent.1 == k) then l.map (fun ent => if ent.1 == k then (k, v, e) else ent)
  else l ++ [(k, v, e)]

/-- Stable insertion used by `sortKeys`. -/
def insertSortedKey (le : String → String → Bool) (x : String) : List String → List String
  | [] => [x]
  | y :: ys => if le x y then x :: y :: ys else y :: insertSortedKey le x ys

/-- Stable sort of the key list, modelling Python's stable `sorted`. -/
def sortKeys (le : String → String → Bool) : List String → List String
  | [] => []
  | x :: xs => insertSortedKey le x (sortKeys le xs)

/-- The sort key `lambda k: self._cache[k][1]` (the entry's expiry). -/
def expiryOf {α : Type} (l : List (String × α × Nat)) (k : String) : Nat :=
  match lookupKey k l with
  | some p => p.2
  | none => 0

/-- Deleting a list of keys in order (`for k in sorted_keys[:n]: del ...`). -/
def deleteKeys {α : Type} (ks : List String) (l : List (String × α × Nat)) :
    List (String × α × Nat) :=
  ks.foldl (fun acc k => eraseKey k acc) l

/-- `InMemoryCache.get` (cache.py lines 49-57): a present, unexpired
entry is returned; an expired entry is deleted lazily and `None` is
returned; a missing key returns `None`. -/
def InMemoryCache.get {α : Type} (c : InMemoryCache α) (k : String) (now : Nat) :
    Option α × InMemoryCache α :=
  match lookupKey k c.cache with
  | some (v, expires_at) =>
    if now < expires_at then (some v, c)
    else (none, { c with cache := eraseKey k c.cache })
  | none => (none, c)

/-- `InMemoryCache.set` (cache.py lines 59-71): when the map is at
capacity (`len >= max_size`), the `max_size // 10` keys with the
earliest expiry (ties in insertion order, Python's stable sort) are
deleted, then the entry is stored with expiry `now + ttl`. -/
def InMemoryCache.set {α : Type} (c : InMemoryCache α) (k : String) (v : α) (ttl now : Nat) :
    InMemoryCache α :=
  let entries :=
    if c.max_size ≤ c.cache.length then
      let sorted_keys := sortKeys
        (fun k1 k2 => decide (expiryOf c.cache k1 ≤ expiryOf c.cache k2))
        (c.cache.map (fun e => e.1))
      deleteKeys (sorted_keys.take (c.max_size / 10)) c.cache
    else c.cache
  { c with cache := dictSet entries k v (now + ttl) }

/-- `InMemoryCache.delete` (cache.py lines 73-75). -/
def InMemoryCache.delete {α : Type} (c : InMemoryCache α) (k : String) : InMemoryCache α :=
  { c with cache := eraseKey k c.cache }

/-- `InMemoryCache.clear` (cache.py lines 77-79). -/
def InMemoryCache.clear {α : Type} (c : InMemoryCache α) : InMemoryCache α :=
  { c with cache := [] }

/-! ### Cache capacity (claim C7) -/

lemma insertSortedKey_perm (le : String → String → Bool) (x : String) :
    ∀ (l : List String), (insertSortedKey le x l).Perm (x :: l)
  | [] => List.Perm.refl _
  | y :: ys => by
    unfold insertSortedKey
    split_ifs
    · exact List.Perm.refl _
    · exact ((insertSortedKey_perm le x ys).cons y).trans (List.Perm.swap x y ys)

lemma sortKeys_perm (le : String → String → Bool) :
    ∀ (l : List String), (sortKeys le l).Perm l
  | [] => List.Perm.refl _
  | x :: xs => (insertSortedKey_perm le x (sortKeys le xs)).trans ((sortKeys_perm le xs).cons x)

lemma eraseKey_keep_of_ne {α : Type} (k k' : String) (l : List (String × α × Nat))
    (hne : k' ≠ k) (hk : k' ∈ l.map (fun e => e.1)) :
    k' ∈ (eraseKey k l).map (fun e => e.1) := by
  obtain ⟨e, hel, hek⟩ := List.mem_map.mp hk
  refine List.mem_map.mpr ⟨e, ?_, hek⟩
  refine List.mem_filter.mpr ⟨hel, ?_⟩
  rw [hek]
  simp [hne]

lemma eraseKey_keys_nodup {α : Type} (k : String) (l : List (String × α × Nat))
    (h : (l.map (fun e => e.1)).Nodup) : ((eraseKey k l).map (fun e => e.1)).Nodup :=
  ((List.filter_sublist l).map (fun e => e.1)).nodup h

lemma eraseKey_length {α : Type} : ∀ (l : List (String × α × Nat)) (k : String),
    (l.map (fun e => e.1)).Nodup → k ∈ l.map (fun e => e.1) →
    (eraseKey k l).length + 1 = l.length
  | [], k, _, hk => by simp at hk
  | e :: es, k, hnd, hk => by
    have hnd' : (es.map (fun x => x.1)).Nodup := by
      rw [List.map_cons] at hnd
      exact hnd.of_cons
    by_cases hek : (e.1 == k) = true
    · have hkeq : e.1 = k := by simpa using hek
      have hknot : k ∉ es.map (fun x => x.1) := by
        rw [List.map_cons] at hnd
        rw [← hkeq]
        exact (List.nodup_cons.mp hnd).1
      have herase : eraseKey k es = es := by
        unfold eraseKey
        apply List.filter_eq_self.mpr
        intro x hx
        have : x.1 ≠ k := fun hc => hknot (hc ▸ List.mem_map_of_mem _ hx)
        simp [this]
      show (List.filter _ (e :: es)).length + 1 = es.length + 1
      rw [List.filter_cons]
      simp only [hek, Bool.not_true, Bool.false_eq_true, if_false]
      show (eraseKey k es).length + 1 = es.length + 1
      rw [herase]
    · have hkmem : k ∈ es.map (fun x => x.1) := by
        rw [List.map_cons] at hk
        rcases List.mem_cons.mp hk with h1 | h2
        · exact absurd (by simp [h1] : (e.1 == k) = true) hek
        · exact h2
      show (List.filter _ (e :: es)).length + 1 = es.length + 1
      rw [List.filter_cons]
      simp only [hek, Bool.not_false, if_true]
      show ((e :: eraseKey k es).length) + 1 = es.length + 1
      rw [List.length_cons]
      have := eraseKey_length es k hnd' hkmem
      omega

lemma deleteKeys_length {α : Type} : ∀ (ks : List String) (l : List (String × α × Nat)),
    ks.Nodup → (∀ k ∈ ks, k ∈ l.map (fun e => e.1)) → (l.map (fun e => e.1)).Nodup →
    (deleteKeys ks l).length + ks.length = l.length
  | [], l, _, _, _ => rfl
  | k :: ks, l, hnd, hmem, hlnd => by
    have h1 := eraseKey_length l k hlnd (hmem k (List.mem_cons_self k ks))
    have h2 : ∀ k' ∈ ks, k' ∈ (eraseKey k l).map (fun e => e.1) := by
      intro k' hk'
      refine eraseKey_keep_of_ne k k' l ?_ (hmem k' (List.mem_cons_of_mem k hk'))
      intro hc
      exact (List.nodup_cons.mp hnd).1 (hc ▸ hk')
    have h3 := deleteKeys_length ks (eraseKey k l) (List.nodup_cons.mp hnd).2 h2
      (eraseKey_keys_nodup k l hlnd)
    show (deleteKeys ks (eraseKey k l)).length + (ks.length + 1) = l.length
    omega

lemma dictSet_length_le {α : Type} (l : List (String × α × Nat)) (k : String) (v : α) (e : Nat) :
    (dictSet l k v e).length ≤ l.length + 1 := by
  unfold dictSet
  split_ifs
  · rw [List.length_map]; omega
  · rw [List.length_append]; simp

/-- **C7 counterexample.** With a configured maximum below 10, the
eviction count `max_size // 10` is zero, so a `set` on a full cache
evicts nothing and the map grows above the maximum: a cache with
`max_size = 5` holding 5 entries has 6 entries after one more `set`. -/
theorem c7_counterexample :
    (InMemoryCache.mk [("k1", 1, 100), ("k2", 2, 100), ("k3", 3, 100), ("k4", 4, 100), ("k5", 5, 100)] 5).cache.length
      = (InMemoryCache.mk [("k1", (1:Nat), 100), ("k2", 2, 100), ("k3", 3, 100), ("k4", 4, 100), ("k5", 5, 100)] 5).max_size ∧
    ((InMemoryCache.mk [("k1", (1:Nat), 100), ("k2", 2, 100), ("k3", 3, 100), ("k4", 4, 100), ("k5", 5, 100)] 5).set "k6" 6 10 0).cache.length = 6 ∧
    ¬ (((InMemoryCache.mk [("k1", (1:Nat), 100), ("k2", 2, 100), ("k3", 3, 100), ("k4", 4, 100), ("k5", 5, 100)] 5).set "k6" 6 10 0).cache.length
        ≤ (InMemoryCache.mk [("k1", (1:Nat), 100), ("k2", 2, 100), ("k3", 3, 100), ("k4", 4, 100), ("k5", 5, 100)] 5).max_size) := by
  refine ⟨rfl, rfl, by decide⟩

/-- **C7 (amended).** For a configured maximum of at least 10 (so that
the 10% eviction removes at least one entry), a `set` on a cache at its
configured maximum first evicts the `max_size // 10` entries with the
nearest expiry and then inserts, leaving the map at or below the
maximum. -/
theorem c7_capacity_eviction_amended {α : Type} (c : InMemoryCache α) (k : String) (v : α)
    (ttl now : Nat) (hmax : 10 ≤ c.max_size) (hfull : c.cache.length = c.max_size)
    (hnd : (c.cache.map (fun e => e.1)).Nodup) :
    (c.set k v ttl now).cache.length ≤ c.max_size := by
  have hcond : c.max_size ≤ c.cache.length := le_of_eq hfull.symm
  have hbranch : (c.set k v ttl now).cache =
      dictSet (deleteKeys ((sortKeys
        (fun k1 k2 => decide (expiryOf c.cache k1 ≤ expiryOf c.cache k2))
        (c.cache.map (fun e => e.1))).take (c.max_size / 10)) c.cache) k v (now + ttl) := by
    unfold InMemoryCache.set
    rw [if_pos hcond]
  have hperm := sortKeys_perm
    (fun k1 k2 => decide (expiryOf c.cache k1 ≤ expiryOf c.cache k2))
    (c.cache.map (fun e => e.1))
  have hsortnd : (sortKeys (fun k1 k2 => decide (expiryOf c.cache k1 ≤ expiryOf c.cache k2))
      (c.cache.map (fun e => e.1))).Nodup := (hperm.nodup_iff).mpr hnd
  have htakend' : ((sortKeys (fun k1 k2 => decide (expiryOf c.cache k1 ≤ expiryOf c.cache k2))
      (c.cache.map (fun e => e.1))).take (c.max_size / 10)).Nodup :=
    List.Nodup.sublist (List.take_sublist (c.max_size / 10) _) hsortnd
  have htakemem : ∀ k' ∈ (sortKeys (fun k1 k2 => decide (expiryOf c.cache k1 ≤ expiryOf c.cache k2))
      (c.cache.map (fun e => e.1))).take (c.max_size / 10), k' ∈ c.cache.map (fun e => e.1) := by
    intro k' hk'
    exact hperm.mem_iff.mp (List.take_subset _ _ hk')
  have hsortlen : (sortKeys (fun k1 k2 => decide (expiryOf c.cache k1 ≤ expiryOf c.cache k2))
      (c.cache.map (fun e => e.1))).length = c.max_size := by
    rw [hperm.length_eq, List.length_map, hfull]
  have htakelen : ((sortKeys (fun k1 k2 => decide (expiryOf c.cache k1 ≤ expiryOf c.cache k2))
      (c.cache.map (fun e => e.1))).take (c.max_size / 10)).length = c.max_size / 10 := by
    rw [List.length_take, hsortlen]
    have : c.max_size / 10 ≤ c.max_size := Nat.div_le_self _ _
    omega
  have hdel := deleteKeys_length ((sortKeys
      (fun k1 k2 => decide (expiryOf c.cache k1 ≤ expiryOf c.cache k2))
      (c.cache.map (fun e => e.1))).take (c.max_size / 10)) c.cache htakend' htakemem hnd
  have hset := dictSet_length_le (deleteKeys ((sortKeys
      (fun k1 k2 => decide (expiryOf c.cache k1 ≤ expiryOf c.cache k2))
      (c.cache.map (fun e => e.1))).take (c.max_size / 10)) c.cache) k v (now + ttl)
  rw [hbranch]
  rw [htakelen] at hdel
  rw [hfull] at hdel
  omega

/-- Witness for the amended C7: a 10-entry cache at `max_size = 10`
stays within bounds after one more `set`. -/
theorem c7_capacity_eviction_amended_witness :
    ((InMemoryCache.mk
      [("a1", (1:Nat), 50), ("a2", 2, 40), ("a3", 3, 60), ("a4", 4, 30), ("a5", 5, 70),
       ("a6", 6, 20), ("a7", 7, 80), ("a8", 8, 10), ("a9", 9, 90), ("a10", 10, 55)] 10).set
      "b1" 11 100 0).cache.length ≤
    (InMemoryCache.mk
      [("a1", (1:Nat), 50), ("a2", 2, 40), ("a3", 3, 60), ("a4", 4, 30), ("a5", 5, 70),
       ("a6", 6, 20), ("a7", 7, 80), ("a8", 8, 10), ("a9", 9, 90), ("a10", 10, 55)] 10).max_size :=
  c7_capacity_eviction_amended _ "b1" 11 100 0 (by decide) (by decide) (by decide)

/-! ### Cache round-trip and expiry (claim C8) -/

lemma lookupKey_map_set {α : Type} (k : String) (v : α) (e : Nat) :
    ∀ (l : List (String × α × Nat)), l.any (fun ent => ent.1 == k) = true →
    lookupKey k (l.map (fun ent => if ent.1 == k then (k, v, e) else ent)) = some (v, e)
  | [], h => by simp at h
  | e0 :: es, h => by
    by_cases he0 : (e0.1 == k) = true
    · show lookupKey k ((if e0.1 == k then (k, v, e) else e0) :: _) = some (v, e)
      rw [if_pos he0]
      show (if (k == k) then some (v, e) else _) = some (v, e)
      simp
    · have hany : es.any (fun ent => ent.1 == k) = true := by
        rcases List.any_eq_true.mp h with ⟨ent, hmem, hent⟩
        rcases List.mem_cons.mp hmem with h1 | h2
        · exact absurd (h1 ▸ hent) he0
        · exact List.any_eq_true.mpr ⟨ent, h2, hent⟩
      show lookupKey k ((if e0.1 == k then (k, v, e) else e0) :: _) = some (v, e)
      rw [if_neg he0]
      show (if (e0.1 == k) then some e0.2 else _) = some (v, e)
      rw [if_neg he0]
      exact lookupKey_map_set k v e es hany

lemma lookupKey_append_new {α : Type} (k : String) (v : α) (e : Nat) :
    ∀ (l : List (String × α × Nat)), l.any (fun ent => ent.1 == k) = false →
    lookupKey k (l ++ [(k, v, e)]) = some (v, e)
  | [], _ => by
    show (if (k == k) then some (v, e) else none) = some (v, e)
    simp
  | e0 :: es, h => by
    have ⟨he0, hany⟩ : (e0.1 == k) = false ∧ es.any (fun ent => ent.1 == k) = false := by
      rw [List.any_cons] at h
      exact ⟨by cases hx : (e0.1 == k) <;> simp [hx] at h ⊢, by cases hx : es.any _ <;> simp [hx] at h ⊢⟩
    show (if (e0.1 == k) then some e0.2 else lookupKey k (es ++ [(k, v, e)])) = some (v, e)
    rw [he0]
    show lookupKey k (es ++ [(k, v, e)]) = some (v, e)
    exact lookupKey_append_new k v e es hany

lemma lookupKey_dictSet {α : Type} (l : List (String × α × Nat)) (k : String) (v : α) (e : Nat) :
    lookupKey k (dictSet l k v e) = some (v, e) := by
  unfold dictSet
  by_cases h : l.any (fun ent => ent.1 == k) = true
  · rw [if_pos h]
    exact lookupKey_map_set k v e l h
  · rw [if_neg h]
    exact lookupKey_append_new k v e l (Bool.eq_false_iff.mpr h)

lemma lookupKey_eraseKey {α : Type} (k : String) :
    ∀ (l : List (String × α × Nat)), lookupKey k (eraseKey k l) = none
  | [] => rfl
  | e0 :: es => by
    show lookupKey k (List.filter _ (e0 :: es)) = none
    rw [List.filter_cons]
    by_cases he0 : (e0.1 == k) = true
    · simp only [he0, Bool.not_true, Bool.false_eq_true, if_false]
      exact lookupKey_eraseKey k es
    · rw [Bool.eq_false_iff.mpr he0]
      simp only [Bool.not_false, if_true]
      show (if (e0.1 == k) then some e0.2 else lookupKey k (eraseKey k es)) = none
      rw [Bool.eq_false_iff.mpr he0]
      simp only [Bool.false_eq_true, if_false]
      exact lookupKey_eraseKey k es

/-- **C8.** `set(k, v, ttl)` stores an entry expiring at `now + ttl`:
a `get(k)` before that instant returns `v`; a `get(k)` at or after it
returns `None` and lazily removes the entry; and in general `get` never
returns a value whose expiry has passed. -/
theorem c8_cache_ttl_roundtrip {α : Type} (c : InMemoryCache α) (k : String) (v : α)
    (ttl now now2 : Nat) (httl : 0 < ttl) :
    (now2 < now + ttl → ((c.set k v ttl now).get k now2).1 = some v) ∧
    (now + ttl ≤ now2 →
      ((c.set k v ttl now).get k now2).1 = none ∧
      lookupKey k (((c.set k v ttl now).get k now2).2).cache = none) ∧
    (∀ (d : InMemoryCache α) (w : α), (d.get k now2).1 = some w →
      ∃ e, lookupKey k d.cache = some (w, e) ∧ now2 < e) := by
  have hl : lookupKey k (c.set k v ttl now).cache = some (v, now + ttl) := by
    unfold InMemoryCache.set
    exact lookupKey_dictSet _ k v (now + ttl)
  refine ⟨?_, ?_, ?_⟩
  · intro h
    unfold InMemoryCache.get
    rw [hl]
    simp [h]
  · intro h
    have hnot : ¬ (now2 < now + ttl) := by omega
    unfold InMemoryCache.get
    rw [hl]
    simp only [hnot, if_false]
    exact ⟨trivial, lookupKey_eraseKey k _⟩
  · intro d w h
    unfold InMemoryCache.get at h
    cases hld : lookupKey k d.cache with
    | none =>
      rw [hld] at h
      simp at h
    | some p =>
      obtain ⟨w', e⟩ := p
      rw [hld] at h
      by_cases hlt : now2 < e
      · have h' : some w' = some w := by simpa [hlt] using h
        obtain rfl : w' = w := Option.some.inj h'
        exact ⟨e, rfl, hlt⟩
      · exfalso
        simp [hlt] at h

/-- Witness for C8 at `k = "p", v = 3, ttl = 60, now = 100`: the entry
is readable at t=159 and gone (and lazily removed) at t=161. -/
theorem c8_cache_ttl_roundtrip_witness :
    (((InMemoryCache.mk ([] : List (String × Nat × Nat)) 100).set "p" 3 60 100).get "p" 159).1 = some 3 ∧
    (((InMemoryCache.mk ([] : List (String × Nat × Nat)) 100).set "p" 3 60 100).get "p" 161).1 = none ∧
    lookupKey "p" ((((InMemoryCache.mk ([] : List (String × Nat × Nat)) 100).set "p" 3 60 100).get "p" 161).2).cache = none :=
  ⟨(c8_cache_ttl_roundtrip (InMemoryCache.mk ([] : List (String × Nat × Nat)) 100) "p" 3 60 100 159
      (by decide)).1 (by decide),
   (c8_cache_ttl_roundtrip (InMemoryCache.mk ([] : List (String × Nat × Nat)) 100) "p" 3 60 100 161
      (by decide)).2.1 (by decide)⟩

/-! ### Sliding-window limiter (`app/middleware/rate_limit.py`, claim C9) -/

/-- `RateLimiter` configuration (rate_limit.py lines 37-51).
Timestamps are Python floats compared with `<` and `>`; they are
modelled as integers. -/
structure RateLimiter where
  requests_limit : Nat
  window_seconds : Int
deriving DecidableEq, Repr

/-- `min(state.requests)` with the code's guard
`if state.requests else now`. -/
def listMin (l : List Int) (dflt : Int) : Int :=
  match l with
  | [] => dflt
  | x :: xs => xs.foldl min x

/-- `RateLimiter._cleanup_old_requests` (rate_limit.py lines 66-69):
keeps the timestamps strictly newer than `now - window`. -/
def RateLimiter.cleanup_old_requests (rl : RateLimiter) (requests : List Int) (now : Int) :
    List Int :=
  requests.filter (fun ts => decide (now - rl.window_seconds < ts))

/-- `RateLimiter.is_allowed` (rate_limit.py lines 71-100) for one
client key, state-passing: returns
`((allowed, remaining, reset_seconds), new_request_list)`. -/
def RateLimiter.is_allowed (rl : RateLimiter) (requests : List Int) (now : Int) :
    (Bool × Nat × Int) × List Int :=
  let requests := rl.cleanup_old_requests requests now
  let remaining := rl.requests_limit - requests.length
  if rl.requests_limit ≤ requests.length then
    let oldest := listMin requests now
    let reset_seconds := (oldest + rl.window_seconds) - now
    ((false, 0, max 1 reset_seconds), requests)
  else
    ((true, remaining - 1, rl.window_seconds), requests ++ [now])

/-- **C9.** `is_allowed` first prunes the window — afterwards every
remaining timestamp is newer than `now - window` (so every timestamp
older than `now - window` has been dropped), and every in-window
timestamp is kept; if the remaining count is at least the limit it
rejects with retry-after `(oldest remaining + window) - now`, floored at
1, leaving the list unchanged; otherwise it admits and appends `now`. -/
theorem c9_sliding_window_limiter (rl : RateLimiter) (requests : List Int) (now : Int) :
    (∀ ts ∈ rl.cleanup_old_requests requests now, now - rl.window_seconds < ts) ∧
    (∀ ts ∈ requests, now - rl.window_seconds < ts → ts ∈ rl.cleanup_old_requests requests now) ∧
    (rl.requests_limit ≤ (rl.cleanup_old_requests requests now).length →
      rl.is_allowed requests now =
        ((false, 0, max 1 ((listMin (rl.cleanup_old_requests requests now) now + rl.window_seconds) - now)),
         rl.cleanup_old_requests requests now)) ∧
    ((rl.cleanup_old_requests requests now).length < rl.requests_limit →
      rl.is_allowed requests now =
        ((true, rl.requests_limit - (rl.cleanup_old_requests requests now).length - 1, rl.window_seconds),
         rl.cleanup_old_requests requests now ++ [now])) := by
  refine ⟨?_, ?_, ?_, ?_⟩
  · intro ts hts
    have := List.of_mem_filter hts
    simpa using this
  · intro ts hts hin
    exact List.mem_filter.mpr ⟨hts, by simpa using hin⟩
  · intro h
    unfold RateLimiter.is_allowed
    rw [if_pos h]
  · intro h
    unfold RateLimiter.is_allowed
    rw [if_neg (by omega)]

/-- Witness for C9: the spec's concrete scenario with limit 3 and a
60-second window.  Three requests at t=0 are admitted (the state grows
to `[0, 0, 0]`), a fourth at t=1 is rejected with retry-after 59 ≤ 60,
and a request at t=61 is admitted again. -/
theorem c9_sliding_window_limiter_witness :
    ((RateLimiter.mk 3 60).is_allowed [] 0).1.1 = true ∧
    ((RateLimiter.mk 3 60).is_allowed [] 0).2 = [0] ∧
    ((RateLimiter.mk 3 60).is_allowed [0] 0).1.1 = true ∧
    ((RateLimiter.mk 3 60).is_allowed [0] 0).2 = [0, 0] ∧
    ((RateLimiter.mk 3 60).is_allowed [0, 0] 0).1.1 = true ∧
    ((RateLimiter.mk 3 60).is_allowed [0, 0] 0).2 = [0, 0, 0] ∧
    ((RateLimiter.mk 3 60).is_allowed [0, 0, 0] 1).1.1 = false ∧
    ((RateLimiter.mk 3 60).is_allowed [0, 0, 0] 1).1.2.2 = 59 ∧
    ((RateLimiter.mk 3 60).is_allowed [0, 0, 0] 1).1.2.2 ≤ 60 ∧
    ((RateLimiter.mk 3 60).is_allowed [0, 0, 0] 61).1.1 = true := by
  have hrej := (c9_sliding_window_limiter (RateLimiter.mk 3 60) [0, 0, 0] 1).2.2.1 (by decide)
  have hadm := (c9_sliding_window_limiter (RateLimiter.mk 3 60) [0, 0, 0] 61).2.2.2 (by decide)
  refine ⟨by decide, by decide, by decide, by decide, by decide, by decide, ?_, ?_, ?_, ?_⟩
  · rw [hrej]
  · rw [hrej]; decide
  · rw [hrej]; decide
  · rw [hadm]

end InstaApi
